import Mathlib

/-!
Shallow embedding of the event ingestion and query layer of the repository:
the webhook handler in
`projects/unit3/github-actions-integration/starter/webhook_server.py` and the
two event-query tools in
`projects/unit3/github-actions-integration/starter/server.py`.

JSON documents are modelled by the inductive `Json` (numbers as `Int`: every
value the layer compares or stores in the claims is an integer id or a
string).  The persisted events file is modelled by `StoreFile`: absent,
existing-but-malformed (carrying the parse error detail), or parsed as an
array of events — the only well-formed shape the webhook writer ever
produces.  Python dynamic faults that the source does not catch
(AttributeError from calling `.get` on a non-dict, TypeError from ordering
`None` against an int or from an unhashable dict key) are made explicit with
`Except PyFault`.
-/

/-- JSON values as received and stored by the layer. -/
inductive Json where
  | null
  | bool (b : Bool)
  | num (n : Int)
  | str (s : String)
  | arr (elems : List Json)
  | obj (entries : List (String × Json))

/-- Dynamic faults of the Python source that no handler in the relevant
functions catches: `attributeError` models calling `.get` on a value that is
not a dict, `typeError` models an unsupported comparison (such as
`None > int`) or an unhashable dict key. -/
inductive PyFault where
  | attributeError
  | typeError
deriving Repr, DecidableEq

/-- First-match lookup in a JSON object, as in a Python dict (keys are unique
in any dict produced by `json.load`, so first-match is exact). -/
def dictGet (entries : List (String × Json)) (key : String) : Option Json :=
  match entries with
  | [] => none
  | (k, v) :: rest => if k == key then some v else dictGet rest key

/-- Python `value.get(key, default)`: succeeds only when the receiver is a
dict, otherwise raises AttributeError (which the query code does not catch). -/
def pyGet (j : Json) (key : String) (dflt : Json) : Except PyFault Json :=
  match j with
  | .obj entries => .ok ((dictGet entries key).getD dflt)
  | _ => .error .attributeError

/-- Python truthiness test (`if not name:`) on a JSON value: `None`, `False`,
`0`, the empty string, the empty list and the empty dict are falsy. -/
def Json.falsy : Json → Bool
  | .null => true
  | .bool b => !b
  | .num n => n == 0
  | .str s => s == ""
  | .arr xs => xs.isEmpty
  | .obj es => es.isEmpty

/-- Python `a > b` on JSON values: numbers compare numerically (a bool counts
as 0 or 1), strings compare lexicographically; every other combination —
in particular any comparison against `None`, the shape the claims exercise —
raises TypeError.  (Python would also compare two lists element-wise; no run
identifier in this development is a list, so that case is folded into
TypeError as well.) -/
def pyGt (a b : Json) : Except PyFault Bool :=
  match a, b with
  | .num m, .num n => .ok (decide (n < m))
  | .num m, .bool c => .ok (decide ((if c then (1 : Int) else 0) < m))
  | .bool c, .num n => .ok (decide (n < (if c then (1 : Int) else 0)))
  | .bool c, .bool d => .ok (decide ((if d then (1 : Int) else 0) < (if c then (1 : Int) else 0)))
  | .str s, .str t => .ok (decide (t < s))
  | _, _ => .error .typeError

/-- Canonical form of a JSON value used as a Python dict key: Python hashes
`True` and `1` alike, lists and dicts are unhashable (TypeError, signalled by
`none`). -/
inductive KeyVal where
  | knull
  | knum (n : Int)
  | kstr (s : String)
deriving Repr, DecidableEq

/-- Hash-key view of a JSON value: scalar values canonicalize (bools to their
int value), lists and dicts are unhashable. -/
def pyHashKey : Json → Option KeyVal
  | .null => some .knull
  | .bool b => some (.knum (if b then 1 else 0))
  | .num n => some (.knum n)
  | .str s => some (.kstr s)
  | .arr _ => none
  | .obj _ => none

/-- State of the persisted events file `github_events.json`: absent (first
run), existing but malformed (carrying the message of the JSONDecodeError
that `json.load` raises on it), or parsed as an array of events.  An
existing file holding well-formed JSON that is not an array never arises:
the webhook writer only ever writes arrays. -/
inductive StoreFile where
  | absent
  | corrupt (err : String)
  | events (log : List Json)

/-- Read of the events file as inlined at `webhook_server.py:38-42` and at
the head of both query tools (`server.py:188-193`, `server.py:210-217`):
an absent file reads as the empty log, a malformed file raises the parse
error, otherwise the stored array is returned oldest first. -/
def read_all : StoreFile → Except String (List Json)
  | .absent => .ok []
  | .corrupt e => .error e
  | .events l => .ok l

/-! ## Webhook ingestion (`webhook_server.py`, `handle_webhook`) -/

/-- Event record built at `webhook_server.py:31-35`: capture timestamp,
the `X-GitHub-Event` header value (defaulting to `unknown` when the header
is absent), and the parsed body as payload. -/
def mkEvent (now : String) (header : Option String) (data : Json) : Json :=
  .obj [("timestamp", .str now), ("event_type", .str (header.getD "unknown")), ("payload", data)]

/-- Python `events[-100:]` (`webhook_server.py:46`): keep only the last 100
entries of the log. -/
def lastSlice100 (l : List Json) : List Json :=
  l.drop (l.length - 100)

/-- HTTP response of the webhook handler: status code and JSON body. -/
structure HttpResponse where
  status : Nat
  body : Json

/-- Result of one webhook call: the HTTP response and the store state the
call leaves behind. -/
structure HandlerResult where
  response : HttpResponse
  store : StoreFile

/-- Body of the 400 response built at `webhook_server.py:56`: the message of
the JSONDecodeError together with an echo of the raw request body. -/
def decodeErrorBody (e body : String) : Json :=
  .obj [("error", .str ("JSON Decode Error: " ++ e)), ("body_received", .str body)]

/-- Body of the 200 response built at `webhook_server.py:52`. -/
def receivedBody : Json :=
  .obj [("status", .str "received")]

/-- The webhook handler `handle_webhook` (`webhook_server.py:16-59`).
`body` is the raw request text, `parsed` the outcome of `json.loads(body)`
(the message of the decode error on failure), `header` the optional
`X-GitHub-Event` header, `now` the capture timestamp
`datetime.now().isoformat()`.  A malformed body is answered with 400 before
the file is touched.  With a well-formed body, a malformed existing store
makes `json.load` raise JSONDecodeError, which the same `except` clause
turns into the same 400 shape, leaving the file unchanged; otherwise the
new event is appended, the log truncated to its last 100 entries, written
back, and 200 is returned. -/
def handle_webhook (store : StoreFile) (body : String) (parsed : Except String Json)
    (header : Option String) (now : String) : HandlerResult :=
  match parsed with
  | .error e => ⟨⟨400, decodeErrorBody e body⟩, store⟩
  | .ok data =>
    match store with
    | .corrupt e => ⟨⟨400, decodeErrorBody e body⟩, .corrupt e⟩
    | .absent => ⟨⟨200, receivedBody⟩, .events (lastSlice100 ([] ++ [mkEvent now header data]))⟩
    | .events l => ⟨⟨200, receivedBody⟩, .events (lastSlice100 (l ++ [mkEvent now header data]))⟩

/-- One successfully parsed webhook call: raw body, parsed payload, optional
event header and capture timestamp. -/
structure IngestItem where
  body : String
  data : Json
  header : Option String
  now : String

/-- The event record a given ingested call appends. -/
def IngestItem.event (it : IngestItem) : Json :=
  mkEvent it.now it.header it.data

/-- Store state after a sequence of webhook calls, threading the store
through `handle_webhook`. -/
def ingest (store : StoreFile) : List IngestItem → StoreFile
  | [] => store
  | it :: rest => ingest (handle_webhook store it.body (.ok it.data) it.header it.now).store rest

/-- Check that every call in a sequence of webhook deliveries is acknowledged
with status 200, threading the store through `handle_webhook`. -/
def ingestAll200 (store : StoreFile) : List IngestItem → Bool
  | [] => true
  | it :: rest =>
    let r := handle_webhook store it.body (.ok it.data) it.header it.now
    (r.response.status == 200) && ingestAll200 r.store rest

/-! ## Recent events query (`server.py`, `get_recent_actions_events`) -/

/-- Result of the recent-events tool: either the JSON array it serializes or
the error object it returns when reading, key extraction or sorting raises
(`server.py:199-200` catches every exception). -/
inductive RecentResult where
  | events (l : List Json)
  | error (msg : String)

/-- Sort key of `server.py:197`, `x.get("timestamp", "")`, read as a string;
only meaningful on events whose timestamp (when present) is a string, which
the guard `strKeyed` checks before this function is used. -/
def timStr (x : Json) : String :=
  match x with
  | .obj es =>
    match (dictGet es "timestamp").getD (.str "") with
    | .str s => s
    | _ => ""
  | _ => ""

/-- Sort key of `server.py:197` read as a number (a bool counts as 0 or 1),
for logs whose timestamps are all numeric. -/
def timNumV (x : Json) : Int :=
  match x with
  | .obj es =>
    match (dictGet es "timestamp").getD (.str "") with
    | .num n => n
    | .bool b => if b then 1 else 0
    | _ => 0
  | _ => 0

/-- Check that an event is a dict (so that the key function
`x.get("timestamp", "")` does not raise AttributeError). -/
def isDictEvent (x : Json) : Bool :=
  match x with
  | .obj _ => true
  | _ => false

/-- Check that every event in the log is a dict. -/
def allDictEvents (l : List Json) : Bool :=
  l.all isDictEvent

/-- Check that an event's sort key `x.get("timestamp", "")` is a string (the
shape the webhook writer always produces: a missing timestamp defaults to
the empty string). -/
def strKeyed (x : Json) : Bool :=
  match x with
  | .obj es =>
    match (dictGet es "timestamp").getD (.str "") with
    | .str _ => true
    | _ => false
  | _ => false

/-- Check that an event's sort key is numeric (Python also orders such keys). -/
def numKeyed (x : Json) : Bool :=
  match x with
  | .obj es =>
    match (dictGet es "timestamp").getD (.str "") with
    | .num _ => true
    | .bool _ => true
    | _ => false
  | _ => false

/-- Descending-timestamp order used by `sorted(..., reverse=True)` on string
keys: an event precedes another when its key is at least as large in the
lexicographic code-point order — the order Python uses on strings, taken
here on the underlying character lists.  A stable sort under this relation
is exactly what Python's stable `sorted` with `reverse=True` produces. -/
def tsGe (a b : Json) : Prop :=
  (timStr b).data ≤ (timStr a).data

/-- Descending numeric-timestamp order, the all-numeric-keys counterpart of
`tsGe`. -/
def tnGe (a b : Json) : Prop :=
  timNumV b ≤ timNumV a

instance : DecidableRel tsGe :=
  fun a b => inferInstanceAs (Decidable ((timStr b).data ≤ (timStr a).data))

instance : DecidableRel tnGe :=
  fun a b => inferInstanceAs (Decidable (timNumV b ≤ timNumV a))

instance : IsTotal Json tsGe :=
  ⟨fun a b => le_total (timStr b).data (timStr a).data⟩

instance : IsTrans Json tsGe :=
  ⟨fun _ _ _ h1 h2 => le_trans h2 h1⟩

instance : IsTotal Json tnGe :=
  ⟨fun a b => le_total (timNumV b) (timNumV a)⟩

instance : IsTrans Json tnGe :=
  ⟨fun _ _ _ h1 h2 => le_trans h2 h1⟩

/-- Python list slicing `l[:limit]` for an `int` limit: a nonnegative limit
takes that many entries from the front, a negative one drops that many from
the back. -/
def pySliceTo (l : List Json) (limit : Int) : List Json :=
  if 0 ≤ limit then l.take limit.toNat else l.take (l.length - (-limit).toNat)

/-- Message text standing in for the Python exception message interpolated
into the error object at `server.py:200` when the sort itself raises; the
claims never inspect this text. -/
def pyFaultMsg : PyFault → String
  | .attributeError => "AttributeError: the event is not a dict"
  | .typeError => "TypeError: unorderable timestamp values"

/-- The tool `get_recent_actions_events` (`server.py:182-200`) with explicit
`limit`.  An absent file serializes the empty array; a malformed file makes
`json.load` raise and the handler returns the error object.  Otherwise the
log is sorted by `sorted(events, key=lambda x: x.get("timestamp", ""),
reverse=True)` — a stable descending sort, realized here by insertion sort
under `tsGe` (or `tnGe` for all-numeric keys; a log of at most one event
needs no comparison at all) — and sliced to `[:limit]`.  Any other key shape
makes a comparison raise TypeError, which the same handler catches. -/
def get_recent_actions_events (store : StoreFile) (limit : Int) : RecentResult :=
  match store with
  | .absent => .events []
  | .corrupt e => .error ("Failed to read or parse events file: " ++ e)
  | .events l =>
    if allDictEvents l then
      if l.all strKeyed then .events (pySliceTo (List.insertionSort tsGe l) limit)
      else if l.all numKeyed then .events (pySliceTo (List.insertionSort tnGe l) limit)
      else if l.length ≤ 1 then .events (pySliceTo l limit)
      else .error ("Failed to read or parse events file: " ++ pyFaultMsg .typeError)
    else .error ("Failed to read or parse events file: " ++ pyFaultMsg .attributeError)

/-! ## Workflow status query (`server.py`, `get_workflow_status`) -/

/-- Latest-run record per workflow name as built at `server.py:250-255`:
the raw JSON values of the run id, status, conclusion and `updated_at`. -/
structure Snapshot where
  id : Json
  status : Json
  conclusion : Json
  timestamp : Json

/-- Result of the workflow-status tool.  The first four constructors are the
informational JSON objects returned at `server.py:211`, `217`, `227` and
`236`; `statuses` is the mapping serialized at `server.py:257`, keyed by the
(hashed) workflow name in first-insertion order as a Python dict is. -/
inductive WorkflowStatusResult where
  | noEventsFile
  | readError (msg : String)
  | noWorkflowRunEvents
  | noRunsFor (name : String)
  | statuses (m : List (KeyVal × Snapshot))

/-- Filter of `server.py:220-224`: keep the payloads of events whose
`event_type` equals `workflow_run` and which carry a `payload` key; an event
that is not a dict makes `event.get` raise AttributeError, aborting the
whole comprehension. -/
def filterWorkflowRuns : List Json → Except PyFault (List Json)
  | [] => .ok []
  | e :: rest =>
    match e with
    | .obj es =>
      match (dictGet es "event_type").getD .null with
      | .str tag =>
        if tag == "workflow_run" then
          match dictGet es "payload" with
          | some p => do
            let r ← filterWorkflowRuns rest
            .ok (p :: r)
          | none => filterWorkflowRuns rest
        else filterWorkflowRuns rest
      | _ => filterWorkflowRuns rest
    | _ => .error .attributeError

/-- Nested access `run.get("workflow", {}).get("name")` (`server.py:233` and
`server.py:241`). -/
def nameOfRun (run : Json) : Except PyFault Json := do
  let w ← pyGet run "workflow" (.obj [])
  pyGet w "name" .null

/-- Nested access `run.get("workflow_run", {}).get("id")` (`server.py:246`). -/
def runIdOf (run : Json) : Except PyFault Json := do
  let w ← pyGet run "workflow_run" (.obj [])
  pyGet w "id" .null

/-- Nested access `run.get("workflow_run", {}).get("status")`
(`server.py:252`). -/
def runStatusOf (run : Json) : Except PyFault Json := do
  let w ← pyGet run "workflow_run" (.obj [])
  pyGet w "status" .null

/-- Nested access `run.get("workflow_run", {}).get("conclusion")`
(`server.py:253`). -/
def runConclusionOf (run : Json) : Except PyFault Json := do
  let w ← pyGet run "workflow_run" (.obj [])
  pyGet w "conclusion" .null

/-- Nested access `run.get("workflow_run", {}).get("updated_at")`
(`server.py:247`). -/
def runTimestampOf (run : Json) : Except PyFault Json := do
  let w ← pyGet run "workflow_run" (.obj [])
  pyGet w "updated_at" .null

/-- Name filter of `server.py:231-234`: keep the runs whose embedded
workflow name equals the requested name (Python `==` between an arbitrary
value and a string holds only for that very string). -/
def filterByName (name : String) : List Json → Except PyFault (List Json)
  | [] => .ok []
  | run :: rest => do
    let n ← nameOfRun run
    let r ← filterByName name rest
    match n with
    | .str s => if s == name then .ok (run :: r) else .ok r
    | _ => .ok r

/-- Lookup in the `latest_statuses` dict keyed by hashed workflow name. -/
def lookupStatus (m : List (KeyVal × Snapshot)) (k : KeyVal) : Option Snapshot :=
  match m with
  | [] => none
  | (k', v) :: rest => if k = k' then some v else lookupStatus rest k

/-- Assignment `latest_statuses[name] = {...}`: update in place when the key
is present (a Python dict keeps its key order), append otherwise. -/
def setStatus (m : List (KeyVal × Snapshot)) (k : KeyVal) (s : Snapshot) :
    List (KeyVal × Snapshot) :=
  match m with
  | [] => [(k, s)]
  | (k', v) :: rest => if k = k' then (k, s) :: rest else (k', v) :: setStatus rest k s

/-- One iteration of the grouping loop at `server.py:240-255`: extract the
name and skip falsy ones; extract run id and `updated_at`; hash the name
(unhashable names raise TypeError); then, following the short-circuit `or`
of `server.py:249`, keep the incoming run outright when the name is new,
and otherwise only when its id compares greater with Python `>` — a
comparison that raises TypeError when either id is absent (`None`). -/
def updateStatuses (m : List (KeyVal × Snapshot)) (run : Json) :
    Except PyFault (List (KeyVal × Snapshot)) := do
  let n ← nameOfRun run
  if n.falsy then
    .ok m
  else do
    let i ← runIdOf run
    let t ← runTimestampOf run
    match pyHashKey n with
    | none => .error .typeError
    | some k =>
      match lookupStatus m k with
      | none => do
        let s ← runStatusOf run
        let c ← runConclusionOf run
        .ok (setStatus m k ⟨i, s, c, t⟩)
      | some prev => do
        let doUpd ← pyGt i prev.id
        if doUpd then do
          let s ← runStatusOf run
          let c ← runConclusionOf run
          .ok (setStatus m k ⟨i, s, c, t⟩)
        else
          .ok m

/-- The grouping loop at `server.py:239-255` over all retained runs. -/
def foldStatuses (m : List (KeyVal × Snapshot)) : List Json → Except PyFault (List (KeyVal × Snapshot))
  | [] => .ok m
  | run :: rest => do
    let m2 ← updateStatuses m run
    foldStatuses m2 rest

/-- The tool `get_workflow_status` (`server.py:204-257`).  An absent file and
a malformed file are answered with the informational and error objects of
`server.py:211` and `217` (only the file read sits inside a `try`); then the
log is filtered to workflow-run payloads, empty results short-circuit to
informational objects, the optional name filter applies only to a non-empty
name (Python `if workflow_name:` is a truthiness test), and the remaining
runs are grouped to the latest status per name.  Faults raised by the
filtering or grouping propagate to the caller unhandled. -/
def get_workflow_status (store : StoreFile) (workflow_name : Option String) :
    Except PyFault WorkflowStatusResult :=
  match store with
  | .absent => .ok .noEventsFile
  | .corrupt e => .ok (.readError ("Failed to read or parse events file: " ++ e))
  | .events l => do
    let runs ← filterWorkflowRuns l
    if runs.isEmpty then
      .ok .noWorkflowRunEvents
    else
      match workflow_name with
      | some n =>
        if n == "" then do
          let m ← foldStatuses [] runs
          .ok (.statuses m)
        else do
          let runs2 ← filterByName n runs
          if runs2.isEmpty then
            .ok (.noRunsFor n)
          else do
            let m ← foldStatuses [] runs2
            .ok (.statuses m)
      | none => do
        let m ← foldStatuses [] runs
        .ok (.statuses m)

/-! ## Views of clean workflow-run payloads -/

/-- Value of a successful extraction, with a fallback for the failing case. -/
def okOr (x : Except PyFault Json) (d : Json) : Json :=
  match x with
  | .ok v => v
  | .error _ => d

/-- Workflow name of a payload whose name extraction succeeds with a
string. -/
def cleanName (run : Json) : String :=
  match nameOfRun run with
  | .ok (.str s) => s
  | _ => ""

/-- Run identifier of a payload whose id extraction succeeds with a
number. -/
def cleanId (run : Json) : Int :=
  match runIdOf run with
  | .ok (.num j) => j
  | _ => 0

/-- The snapshot the grouping loop builds for a payload: raw id, status,
conclusion and `updated_at` as extracted. -/
def cleanSnap (run : Json) : Snapshot :=
  ⟨okOr (runIdOf run) .null, okOr (runStatusOf run) .null,
   okOr (runConclusionOf run) .null, okOr (runTimestampOf run) .null⟩

/-- A payload is clean when its nested workflow name extracts to a non-empty
string and its nested run id extracts to a number — the shape whose run
identifiers the latest-run claim is about. -/
def cleanRun (run : Json) : Bool :=
  (match nameOfRun run with
   | .ok (.str s) => !(s == "")
   | _ => false)
  &&
  (match runIdOf run with
   | .ok (.num _) => true
   | _ => false)

/-- Numeric view of the id stored in a snapshot. -/
def snapId (s : Snapshot) : Int :=
  match s.id with
  | .num j => j
  | _ => 0

/-- Modelled from the spec, one step: for the queried name, keep the run
with the numerically largest embedded run identifier seen so far — a later
run with a smaller or equal id for the same name does not replace the kept
one. -/
def specStep (name : String) (best : Option Json) (r : Json) : Option Json :=
  if cleanName r = name then
    match best with
    | none => some r
    | some b => if cleanId b < cleanId r then some r else some b
  else best

/-- Modelled from the spec: reduce the runs to one kept run per name by
folding `specStep` over them in log order. -/
def spec_latest_run (name : String) : Option Json → List Json → Option Json
  | best, [] => best
  | best, r :: rest => spec_latest_run name (specStep name best r) rest

/-- One step of the latest-run reduction carried on snapshots, mirroring the
grouping loop for a single name. -/
def stepBest (name : String) (acc : Option Snapshot) (r : Json) : Option Snapshot :=
  if cleanName r = name then
    match acc with
    | none => some (cleanSnap r)
    | some p => if snapId p < cleanId r then some (cleanSnap r) else some p
  else acc

/-- The latest-run reduction on snapshots over a run list. -/
def simBest (name : String) : Option Snapshot → List Json → Option Snapshot
  | acc, [] => acc
  | acc, r :: rest => simBest name (stepBest name acc r) rest

/-! ## Supporting lemmas -/

/-- Unfolding of a successful bind in the `Except` monad. -/
lemma except_bind_ok {ε α β : Type} (a : α) (f : α → Except ε β) :
    (Except.ok a >>= f : Except ε β) = f a :=
  rfl

/-- Taking 100 from the front absorbs an inner front-take of 100 behind an
append. -/
lemma take100_absorb (a b : List Json) :
    (b ++ a.take 100).take 100 = (b ++ a).take 100 := by
  rw [List.take_append_eq_append_take, List.take_append_eq_append_take, List.take_take]
  exact congrArg _ (congrArg a.take (Nat.min_eq_left (Nat.sub_le _ _)))

/-- The last-100 slice, written with reverses. -/
lemma lastSlice100_rev (l : List Json) :
    lastSlice100 l = (l.reverse.take 100).reverse :=
  List.rtake_eq_reverse_take_reverse l 100

/-- Appending after a last-100 slice and slicing again is slicing the whole
append: the FIFO cap is a congruence for later appends. -/
lemma lastSlice100_append (xs ys : List Json) :
    lastSlice100 (lastSlice100 xs ++ ys) = lastSlice100 (xs ++ ys) := by
  simp only [lastSlice100_rev, List.reverse_append, List.reverse_reverse]
  rw [take100_absorb]

/-- Unfolding of a successful webhook call on a well-formed log. -/
lemma handle_webhook_ok_events (l : List Json) (body : String) (data : Json)
    (header : Option String) (now : String) :
    handle_webhook (.events l) body (.ok data) header now
      = ⟨⟨200, receivedBody⟩, .events (lastSlice100 (l ++ [mkEvent now header data]))⟩ :=
  rfl

/-- Unfolding of a successful webhook call on an absent store. -/
lemma handle_webhook_ok_absent (body : String) (data : Json)
    (header : Option String) (now : String) :
    handle_webhook .absent body (.ok data) header now
      = ⟨⟨200, receivedBody⟩, .events (lastSlice100 ([] ++ [mkEvent now header data]))⟩ :=
  rfl

/-- Threading any capped log through a sequence of successful webhook calls
appends the new event records and keeps the last 100. -/
lemma ingest_events (items : List IngestItem) :
    ∀ acc : List Json,
      ingest (.events (lastSlice100 acc)) items =
        .events (lastSlice100 (acc ++ items.map IngestItem.event)) := by
  induction items with
  | nil => intro acc; simp [ingest]
  | cons it rest ih =>
    intro acc
    have h1 : ingest (.events (lastSlice100 acc)) (it :: rest)
        = ingest (.events (lastSlice100 (acc ++ [it.event]))) rest := by
      simp only [ingest, handle_webhook_ok_events, IngestItem.event, lastSlice100_append]
    rw [h1, ih (acc ++ [it.event])]
    simp [List.append_assoc]

/-- Every webhook call on a well-formed store with a well-formed body is
acknowledged with 200. -/
lemma ingestAll200_events (items : List IngestItem) :
    ∀ l : List Json, ingestAll200 (.events l) items = true := by
  induction items with
  | nil => intro l; rfl
  | cons it rest ih =>
    intro l
    simp only [ingestAll200, handle_webhook_ok_events]
    rw [ih]
    rfl

/-! ## Claims -/

/-- C1: for every sequence of N events successfully ingested through the
webhook endpoint into an initially absent store, every call is acknowledged
with 200, and reading the store afterwards yields exactly the last
min(N, 100) appended event records in arrival order: the log equals the
arrival sequence with its N − 100 earliest entries dropped, and has length
min(N, 100). -/
theorem c1_fifo_capped_log (items : List IngestItem) :
    ingestAll200 .absent items = true ∧
    read_all (ingest .absent items) = .ok (lastSlice100 (items.map IngestItem.event)) ∧
    lastSlice100 (items.map IngestItem.event)
      = (items.map IngestItem.event).drop (items.length - 100) ∧
    (lastSlice100 (items.map IngestItem.event)).length = min items.length 100 := by
  refine ⟨?_, ?_, ?_, ?_⟩
  · cases items with
    | nil => rfl
    | cons it rest =>
      simp only [ingestAll200, handle_webhook_ok_absent]
      rw [ingestAll200_events]
      rfl
  · cases items with
    | nil => rfl
    | cons it rest =>
      simp only [ingest, handle_webhook_ok_absent]
      rw [ingest_events rest ([] ++ [mkEvent it.now it.header it.data])]
      simp [read_all, IngestItem.event]
  · simp [lastSlice100]
  · simp [lastSlice100, List.length_drop, List.length_map]
    omega

/-- C5 as stated is refuted by a well-formed POST arriving while the store
file is malformed: the handler answers 400 and appends nothing. -/
theorem c5_claim_refuted_on_corrupt_store :
    (handle_webhook (.corrupt "bad") "{}" (.ok (.obj [])) (some "push") "t0").response.status = 400 ∧
    (handle_webhook (.corrupt "bad") "{}" (.ok (.obj [])) (some "push") "t0").store = .corrupt "bad" :=
  ⟨rfl, rfl⟩

/-- C5 amended: provided the store file is absent or parses as an event
array, a POST whose body parses as well-formed JSON makes the handler append
exactly one event record — timestamped, tagged with the `X-GitHub-Event`
header value or `unknown`, carrying the parsed body as payload — at the end
of the log (which then keeps its last 100 entries), and answer
`200 {"status": "received"}`; no other store mutation occurs on the call. -/
theorem c5_success_appends_exactly_one :
    (∀ (l : List Json) (body : String) (data : Json) (header : Option String) (now : String),
      handle_webhook (.events l) body (.ok data) header now
        = ⟨⟨200, receivedBody⟩, .events (lastSlice100 (l ++ [mkEvent now header data]))⟩) ∧
    (∀ (body : String) (data : Json) (header : Option String) (now : String),
      handle_webhook .absent body (.ok data) header now
        = ⟨⟨200, receivedBody⟩, .events [mkEvent now header data]⟩) ∧
    (∀ (l : List Json) (body : String) (data : Json) (header : Option String) (now : String),
      l.length < 100 →
      (handle_webhook (.events l) body (.ok data) header now).store
        = .events (l ++ [mkEvent now header data])) := by
  refine ⟨fun l body data header now => rfl, fun body data header now => rfl, ?_⟩
  intro l body data header now h
  show StoreFile.events (lastSlice100 (l ++ [mkEvent now header data])) = _
  have hz : (l ++ [mkEvent now header data]).length - 100 = 0 := by
    simp
    omega
  rw [lastSlice100, hz, List.drop_zero]

/-- Witness for the amended C5 at a concrete one-call input. -/
theorem c5_success_appends_exactly_one_witness :
    ([] : List Json).length < 100 ∧
    (handle_webhook (.events []) "b" (.ok .null) none "t").store
      = .events ([] ++ [mkEvent "t" none .null]) :=
  ⟨by decide, c5_success_appends_exactly_one.2.2 [] "b" .null none "t" (by decide)⟩

/-- C6: a POST whose body fails to parse as JSON is answered 400 with an
error message carrying the decode failure and a `body_received` field
echoing the raw body, and the store — whatever its state — is left
completely unchanged. -/
theorem c6_malformed_body_rejected (store : StoreFile) (body e : String)
    (header : Option String) (now : String) :
    handle_webhook store body (.error e) header now
      = ⟨⟨400, .obj [("error", .str ("JSON Decode Error: " ++ e)),
                     ("body_received", .str body)]⟩, store⟩ :=
  rfl

/-- C8: on a store file that exists but holds malformed JSON, both readers
return a structured error carrying the parse failure detail, and a webhook
append with a well-formed body surfaces the same parse error in a 400
response while leaving the store file unchanged. -/
theorem c8_corrupt_store_errors (e : String) (limit : Int) (wn : Option String)
    (body : String) (data : Json) (header : Option String) (now : String) :
    get_recent_actions_events (.corrupt e) limit
      = .error ("Failed to read or parse events file: " ++ e) ∧
    get_workflow_status (.corrupt e) wn
      = .ok (.readError ("Failed to read or parse events file: " ++ e)) ∧
    handle_webhook (.corrupt e) body (.ok data) header now
      = ⟨⟨400, decodeErrorBody e body⟩, .corrupt e⟩ :=
  ⟨rfl, rfl, rfl⟩

/-- C4 as stated is refuted at limit 0 on a one-event log: the code returns
the empty list, not the whole sorted log, because Python `[:0]` is empty. -/
theorem c4_claim_refuted_at_zero_limit :
    get_recent_actions_events
        (.events [.obj [("timestamp", .str "2024-01-01T00:00:00")]]) 0
      = .events [] ∧
    RecentResult.events ([] : List Json)
      ≠ .events [.obj [("timestamp", .str "2024-01-01T00:00:00")]] :=
  ⟨rfl, by simp⟩

/-- C4 corrected: on a data-model-shaped log (each event a dict whose
timestamp, when present, is a string), `recent_events` with `limit = 0`
returns the empty sequence, and with a negative `limit` returns the
descending-sorted log with its last `-limit` entries dropped — in both
cases without error, but not the whole log. -/
theorem c4_nonpositive_limit_slices (l : List Json) (limit : Int)
    (hd : allDictEvents l = true) (hs : l.all strKeyed = true) :
    (limit = 0 → get_recent_actions_events (.events l) limit = .events []) ∧
    (limit < 0 →
      get_recent_actions_events (.events l) limit
        = .events ((List.insertionSort tsGe l).take
            ((List.insertionSort tsGe l).length - (-limit).toNat))) := by
  constructor
  · intro h
    subst h
    simp [get_recent_actions_events, hd, hs, pySliceTo]
  · intro h
    have h0 : ¬ (0 ≤ limit) := by omega
    simp [get_recent_actions_events, hd, hs, pySliceTo, h0]

/-- Witness for the corrected C4 at a concrete one-event log and limit -1. -/
theorem c4_nonpositive_limit_slices_witness :
    allDictEvents [Json.obj [("timestamp", Json.str "a")]] = true ∧
    ([Json.obj [("timestamp", Json.str "a")]].all strKeyed) = true ∧
    (-1 : Int) < 0 ∧
    get_recent_actions_events (.events [Json.obj [("timestamp", Json.str "a")]]) (-1)
      = .events [] :=
  ⟨rfl, rfl, by decide,
    (c4_nonpositive_limit_slices [Json.obj [("timestamp", Json.str "a")]] (-1) rfl rfl).2
      (by decide)⟩

/-- C9: empty results are informational, never errors: an absent store file
makes `recent_events` return the empty sequence and `workflow_status` the
no-events-file result; a log with no workflow-run events yields the
no-workflow-run-events result; and a name matching no runs yields the
no-runs-for-name result — all distinguishable non-error constructors. -/
theorem c9_empty_results_informational :
    (∀ limit : Int, get_recent_actions_events .absent limit = .events []) ∧
    (∀ wn : Option String, get_workflow_status .absent wn = .ok .noEventsFile) ∧
    (∀ (l : List Json) (wn : Option String), filterWorkflowRuns l = .ok [] →
      get_workflow_status (.events l) wn = .ok .noWorkflowRunEvents) ∧
    (∀ (l runs : List Json) (n : String),
      filterWorkflowRuns l = .ok runs → runs ≠ [] → n ≠ "" →
      filterByName n runs = .ok [] →
      get_workflow_status (.events l) (some n) = .ok (.noRunsFor n)) := by
  refine ⟨fun limit => rfl, fun wn => rfl, ?_, ?_⟩
  · intro l wn h
    simp [get_workflow_status, h, except_bind_ok]
  · intro l runs n h hne hn h2
    have hne2 : runs.isEmpty = false := by
      cases runs with
      | nil => exact absurd rfl hne
      | cons a b => rfl
    have hn2 : (n == "") = false := by
      simp [hn]
    simp [get_workflow_status, h, hne2, hn2, h2, except_bind_ok]

/-- Witness for C9 at concrete inputs: absent file, empty log, and a
one-event log queried for a name that matches nothing. -/
theorem c9_empty_results_informational_witness :
    get_recent_actions_events .absent 10 = .events [] ∧
    get_workflow_status .absent none = .ok .noEventsFile ∧
    get_workflow_status (.events []) none = .ok .noWorkflowRunEvents ∧
    get_workflow_status
        (.events [.obj [("event_type", .str "workflow_run"),
          ("payload", .obj [("workflow", .obj [("name", .str "ci")]),
                            ("workflow_run", .obj [("id", .num 1)])])]])
        (some "nonexistent")
      = .ok (.noRunsFor "nonexistent") :=
  ⟨c9_empty_results_informational.1 10,
   c9_empty_results_informational.2.1 none,
   c9_empty_results_informational.2.2.1 [] none rfl,
   c9_empty_results_informational.2.2.2
     [.obj [("event_type", .str "workflow_run"),
       ("payload", .obj [("workflow", .obj [("name", .str "ci")]),
                         ("workflow_run", .obj [("id", .num 1)])])]]
     [.obj [("workflow", .obj [("name", .str "ci")]),
            ("workflow_run", .obj [("id", .num 1)])]]
     "nonexistent" rfl (by simp) (by decide) rfl⟩

/-- C7: the claim says a missing run identifier is treated as never
superseding an existing entry with no fault reaching the caller; the code
instead compares `None` against the stored id with `>` and raises an
unhandled TypeError.  At a log holding two workflow-run events for the same
workflow, the first with id 5 and the second with no id (its extraction
yields `None`), `get_workflow_status` faults. -/
theorem c7_missing_run_id_raises :
    runIdOf (.obj [("workflow", .obj [("name", .str "ci")]),
                   ("workflow_run", .obj [("status", .str "queued")])]) = .ok .null ∧
    get_workflow_status (.events [
      .obj [("event_type", .str "workflow_run"),
            ("payload", .obj [("workflow", .obj [("name", .str "ci")]),
                              ("workflow_run", .obj [("id", .num 5),
                                                     ("status", .str "completed")])])],
      .obj [("event_type", .str "workflow_run"),
            ("payload", .obj [("workflow", .obj [("name", .str "ci")]),
                              ("workflow_run", .obj [("status", .str "queued")])])]]) none
      = .error .typeError :=
  ⟨rfl, rfl⟩

/-- Inserting an event whose key equals `t` into any list puts it in front of
every later event with that key: filtering by key `t` sees it first. -/
lemma filter_orderedInsert_eq (a : Json) (t : String) (h : timStr a = t) :
    ∀ l : List Json, (List.orderedInsert tsGe a l).filter (fun x => timStr x == t)
      = a :: l.filter (fun x => timStr x == t) := by
  intro l
  induction l with
  | nil => simp [List.orderedInsert, h]
  | cons b rest ih =>
    by_cases hr : tsGe a b
    · simp [List.orderedInsert, hr, List.filter_cons, h]
    · have hlt : (timStr a).data < (timStr b).data := not_le.mp hr
      have hbt : (timStr b == t) = false := by
        simp only [beq_eq_false_iff_ne, ne_eq]
        intro hc
        rw [h, hc] at hlt
        exact absurd hlt (lt_irrefl t.data)
      simp [List.orderedInsert, hr, List.filter_cons, hbt, ih]

/-- Inserting an event whose key differs from `t` leaves the key-`t`
filtration unchanged. -/
lemma filter_orderedInsert_ne (a : Json) (t : String) (h : (timStr a == t) = false) :
    ∀ l : List Json, (List.orderedInsert tsGe a l).filter (fun x => timStr x == t)
      = l.filter (fun x => timStr x == t) := by
  intro l
  induction l with
  | nil => simp [List.orderedInsert, h]
  | cons b rest ih =>
    by_cases hr : tsGe a b
    · simp [List.orderedInsert, hr, List.filter_cons, h]
    · simp [List.orderedInsert, hr, List.filter_cons, ih]

/-- Stability of the descending sort: within each timestamp the original log
order is preserved. -/
lemma insertionSort_stable (l : List Json) (t : String) :
    (List.insertionSort tsGe l).filter (fun x => timStr x == t)
      = l.filter (fun x => timStr x == t) := by
  induction l with
  | nil => rfl
  | cons a rest ih =>
    show (List.orderedInsert tsGe a (List.insertionSort tsGe rest)).filter _ = _
    by_cases h : timStr a = t
    · rw [filter_orderedInsert_eq a t h, ih]
      simp [List.filter_cons, h]
    · have h2 : (timStr a == t) = false := by simp [h]
      rw [filter_orderedInsert_ne a t h2, ih]
      simp [List.filter_cons, h2]

/-- An event strictly below every key of a sorted list is inserted at its
very end. -/
lemma orderedInsert_append_of_forall (a : Json) :
    ∀ m : List Json, (∀ b ∈ m, ¬ tsGe a b) → List.orderedInsert tsGe a m = m ++ [a] := by
  intro m
  induction m with
  | nil => intro _; rfl
  | cons b rest ih =>
    intro h
    have hb : ¬ tsGe a b := h b (List.mem_cons_self b rest)
    simp [List.orderedInsert, hb, ih (fun x hx => h x (List.mem_cons_of_mem b hx))]

/-- A log with strictly increasing timestamps sorts descending to its
reversal. -/
lemma insertionSort_of_ascending :
    ∀ l : List Json, List.Pairwise (fun x y => (timStr x).data < (timStr y).data) l →
      List.insertionSort tsGe l = l.reverse := by
  intro l
  induction l with
  | nil => intro _; rfl
  | cons a rest ih =>
    intro hp
    rcases List.pairwise_cons.mp hp with ⟨ha, htl⟩
    show List.orderedInsert tsGe a (List.insertionSort tsGe rest) = (a :: rest).reverse
    rw [ih htl, orderedInsert_append_of_forall]
    · simp
    · intro b hb
      exact not_le.mpr (ha b (List.mem_reverse.mp hb))

/-- C3: on a data-model-shaped log, `recent_events` with a positive limit
returns the log sorted by timestamp descending — a stable sort: a
permutation of the log, pairwise descending, preserving log order within
equal timestamps — truncated to the first `limit` entries; a limit at least
the log length returns the whole sorted log with no error; and on a log with
strictly increasing timestamps the result is the reversed log truncated to
`limit`, so with limit 3 the three latest events come newest first. -/
theorem c3_recent_events_sorted (l : List Json) (limit : Int)
    (hd : allDictEvents l = true) (hs : l.all strKeyed = true) (hpos : 0 < limit) :
    get_recent_actions_events (.events l) limit
      = .events ((List.insertionSort tsGe l).take limit.toNat) ∧
    List.Sorted tsGe (List.insertionSort tsGe l) ∧
    (List.insertionSort tsGe l).Perm l ∧
    (∀ t : String, (List.insertionSort tsGe l).filter (fun x => timStr x == t)
        = l.filter (fun x => timStr x == t)) ∧
    ((l.length : Int) ≤ limit →
      get_recent_actions_events (.events l) limit = .events (List.insertionSort tsGe l)) ∧
    (List.Pairwise (fun x y => (timStr x).data < (timStr y).data) l →
      get_recent_actions_events (.events l) limit = .events (l.reverse.take limit.toNat)) := by
  have h0 : 0 ≤ limit := le_of_lt hpos
  have hmain : get_recent_actions_events (.events l) limit
      = .events ((List.insertionSort tsGe l).take limit.toNat) := by
    simp [get_recent_actions_events, hd, hs, pySliceTo, h0]
  refine ⟨hmain, List.sorted_insertionSort tsGe l, List.perm_insertionSort tsGe l,
    fun t => insertionSort_stable l t, ?_, ?_⟩
  · intro hle
    rw [hmain]
    have hlen : (List.insertionSort tsGe l).length ≤ limit.toNat := by
      rw [(List.perm_insertionSort tsGe l).length_eq]
      omega
    rw [List.take_of_length_le hlen]
  · intro hasc
    rw [hmain, insertionSort_of_ascending l hasc]

/-- Witness for C3 at a four-event log with ascending distinct timestamps
and limit 3: the three latest events, newest first. -/
theorem c3_recent_events_sorted_witness :
    allDictEvents [Json.obj [("timestamp", Json.str "t1")],
      Json.obj [("timestamp", Json.str "t2")],
      Json.obj [("timestamp", Json.str "t3")],
      Json.obj [("timestamp", Json.str "t4")]] = true ∧
    ([Json.obj [("timestamp", Json.str "t1")],
      Json.obj [("timestamp", Json.str "t2")],
      Json.obj [("timestamp", Json.str "t3")],
      Json.obj [("timestamp", Json.str "t4")]].all strKeyed) = true ∧
    (0 : Int) < 3 ∧
    get_recent_actions_events
        (.events [Json.obj [("timestamp", Json.str "t1")],
          Json.obj [("timestamp", Json.str "t2")],
          Json.obj [("timestamp", Json.str "t3")],
          Json.obj [("timestamp", Json.str "t4")]]) 3
      = .events [Json.obj [("timestamp", Json.str "t4")],
          Json.obj [("timestamp", Json.str "t3")],
          Json.obj [("timestamp", Json.str "t2")]] :=
  ⟨rfl, rfl, by decide,
    (c3_recent_events_sorted
      [Json.obj [("timestamp", Json.str "t1")],
        Json.obj [("timestamp", Json.str "t2")],
        Json.obj [("timestamp", Json.str "t3")],
        Json.obj [("timestamp", Json.str "t4")]] 3 rfl rfl (by decide)).1⟩

/-- Unfolding of a failing bind in the `Except` monad. -/
lemma except_bind_error {ε α β : Type} (e : ε) (f : α → Except ε β) :
    (Except.error e >>= f : Except ε β) = .error e :=
  rfl

/-- Unfolding of a pure bind in the `Except` monad. -/
lemma except_pure_bind {ε α β : Type} (a : α) (f : α → Except ε β) :
    ((pure a : Except ε α) >>= f) = f a :=
  rfl

/-- A successful lookup in the status dict finds one of its entries. -/
lemma lookupStatus_mem :
    ∀ {m : List (KeyVal × Snapshot)} {k : KeyVal} {s : Snapshot},
      lookupStatus m k = some s → (k, s) ∈ m := by
  intro m
  induction m with
  | nil => intro k s h; exact absurd h (by simp [lookupStatus])
  | cons p rest ih =>
    intro k s h
    rw [lookupStatus] at h
    by_cases hk : k = p.1
    · rw [if_pos hk] at h
      have hs : s = p.2 := (Option.some.injEq _ _ ▸ h).symm
      rw [hk, hs]
      exact List.mem_cons_self _ _
    · rw [if_neg hk] at h
      exact List.mem_cons_of_mem _ (ih h)

/-- Updating the status dict makes the updated key hold the new snapshot. -/
lemma lookupStatus_setStatus_self :
    ∀ (m : List (KeyVal × Snapshot)) (k : KeyVal) (s : Snapshot),
      lookupStatus (setStatus m k s) k = some s := by
  intro m
  induction m with
  | nil => intro k s; simp [setStatus, lookupStatus]
  | cons p rest ih =>
    intro k s
    rw [setStatus]
    by_cases hk : k = p.1
    · rw [if_pos hk, lookupStatus, if_pos rfl]
    · rw [if_neg hk, lookupStatus, if_neg hk]
      exact ih k s

/-- Updating the status dict leaves every other key unchanged. -/
lemma lookupStatus_setStatus_ne :
    ∀ (m : List (KeyVal × Snapshot)) (k : KeyVal) (s : Snapshot) (k' : KeyVal),
      k' ≠ k → lookupStatus (setStatus m k s) k' = lookupStatus m k' := by
  intro m
  induction m with
  | nil => intro k s k' hne; simp [setStatus, lookupStatus, hne]
  | cons p rest ih =>
    intro k s k' hne
    rw [setStatus]
    by_cases hk : k = p.1
    · rw [if_pos hk, lookupStatus, if_neg (hk ▸ hne), lookupStatus, if_neg (hk ▸ hne)]
    · rw [if_neg hk, lookupStatus, lookupStatus]
      by_cases hk' : k' = p.1
      · rw [if_pos hk', if_pos hk']
      · rw [if_neg hk', if_neg hk']
        exact ih k s k' hne

/-- Every entry of an updated status dict is the new entry or an old one. -/
lemma setStatus_mem :
    ∀ (m : List (KeyVal × Snapshot)) (k : KeyVal) (s : Snapshot)
      (p : KeyVal × Snapshot), p ∈ setStatus m k s → p = (k, s) ∨ p ∈ m := by
  intro m
  induction m with
  | nil => intro k s p hp; simp [setStatus] at hp; exact Or.inl hp
  | cons q rest ih =>
    intro k s p hp
    rw [setStatus] at hp
    by_cases hk : k = q.1
    · rw [if_pos hk] at hp
      rcases List.mem_cons.mp hp with h1 | h2
      · exact Or.inl h1
      · exact Or.inr (List.mem_cons_of_mem _ h2)
    · rw [if_neg hk] at hp
      rcases List.mem_cons.mp hp with h1 | h2
      · exact Or.inr (h1 ▸ List.mem_cons_self _ _)
      · rcases ih k s p h2 with h3 | h4
        · exact Or.inl h3
        · exact Or.inr (List.mem_cons_of_mem _ h4)

/-- A clean payload's name extraction succeeds with its non-empty name. -/
lemma cleanRun_name {r : Json} (h : cleanRun r = true) :
    nameOfRun r = .ok (.str (cleanName r)) ∧ cleanName r ≠ "" := by
  rw [cleanRun, Bool.and_eq_true] at h
  obtain ⟨h1, _⟩ := h
  cases hn : nameOfRun r with
  | error e => rw [hn] at h1; simp at h1
  | ok v =>
    cases v with
    | str s =>
      rw [hn] at h1
      have hc : cleanName r = s := by simp [cleanName, hn]
      rw [hc]
      exact ⟨rfl, by simpa using h1⟩
    | null => rw [hn] at h1; simp at h1
    | bool b => rw [hn] at h1; simp at h1
    | num n => rw [hn] at h1; simp at h1
    | arr xs => rw [hn] at h1; simp at h1
    | obj es => rw [hn] at h1; simp at h1

/-- A clean payload's id extraction succeeds with its numeric id. -/
lemma cleanRun_id {r : Json} (h : cleanRun r = true) :
    runIdOf r = .ok (.num (cleanId r)) := by
  rw [cleanRun, Bool.and_eq_true] at h
  obtain ⟨_, h2⟩ := h
  cases hi : runIdOf r with
  | error e => rw [hi] at h2; simp at h2
  | ok v =>
    cases v with
    | num j =>
      have hc : cleanId r = j := by simp [cleanId, hi]
      rw [hc]
    | null => rw [hi] at h2; simp at h2
    | bool b => rw [hi] at h2; simp at h2
    | str s => rw [hi] at h2; simp at h2
    | arr xs => rw [hi] at h2; simp at h2
    | obj es => rw [hi] at h2; simp at h2

/-- When the id extraction of a payload succeeds, the `workflow_run` field
read with an empty-dict default is a dict. -/
lemma runAux_obj {r v : Json} (h : runIdOf r = .ok v) :
    ∃ ws, pyGet r "workflow_run" (.obj []) = .ok (.obj ws) := by
  cases hw : pyGet r "workflow_run" (.obj []) with
  | error e => rw [runIdOf, hw, except_bind_error] at h; exact absurd h (by simp)
  | ok w =>
    rw [runIdOf, hw, except_bind_ok] at h
    cases w with
    | obj ws => exact ⟨ws, rfl⟩
    | null => exact absurd h (by simp [pyGet])
    | bool b => exact absurd h (by simp [pyGet])
    | num n => exact absurd h (by simp [pyGet])
    | str s => exact absurd h (by simp [pyGet])
    | arr xs => exact absurd h (by simp [pyGet])

/-- A clean payload's status, conclusion and timestamp extractions all
succeed. -/
lemma cleanRun_aux {r : Json} (h : cleanRun r = true) :
    ∃ s c t : Json,
      runStatusOf r = .ok s ∧ runConclusionOf r = .ok c ∧ runTimestampOf r = .ok t := by
  obtain ⟨ws, hw⟩ := runAux_obj (cleanRun_id h)
  exact ⟨(dictGet ws "status").getD .null, (dictGet ws "conclusion").getD .null,
    (dictGet ws "updated_at").getD .null,
    by rw [runStatusOf, hw, except_bind_ok]; rfl,
    by rw [runConclusionOf, hw, except_bind_ok]; rfl,
    by rw [runTimestampOf, hw, except_bind_ok]; rfl⟩

/-- The snapshot of a clean payload stores its numeric id. -/
lemma snapId_cleanSnap {r : Json} (h : cleanRun r = true) :
    (cleanSnap r).id = Json.num (cleanId r) ∧ snapId (cleanSnap r) = cleanId r := by
  have hid := cleanRun_id h
  have h1 : (cleanSnap r).id = Json.num (cleanId r) := by
    simp [cleanSnap, hid, okOr]
  exact ⟨h1, by simp [snapId, h1]⟩

/-- On a clean payload whose name is new, the grouping step inserts its
snapshot. -/
lemma updateStatuses_clean_new {r : Json} {m : List (KeyVal × Snapshot)}
    (h : cleanRun r = true)
    (hl : lookupStatus m (.kstr (cleanName r)) = none) :
    updateStatuses m r = .ok (setStatus m (.kstr (cleanName r)) (cleanSnap r)) := by
  obtain ⟨hn, hne⟩ := cleanRun_name h
  have hid := cleanRun_id h
  obtain ⟨s, c, t, hst, hcl, hts⟩ := cleanRun_aux h
  have hsnap : cleanSnap r = ⟨Json.num (cleanId r), s, c, t⟩ := by
    simp [cleanSnap, hid, hst, hcl, hts, okOr]
  have hfalsy : (Json.str (cleanName r)).falsy = false := by
    simp [Json.falsy, hne]
  simp [updateStatuses, hn, except_bind_ok, hfalsy, hid, hts, pyHashKey, hl,
    except_pure_bind, hst, hcl, hsnap]

/-- On a clean payload whose name is present with a numerically smaller
stored id, the grouping step replaces the kept snapshot. -/
lemma updateStatuses_clean_lt {r : Json} {m : List (KeyVal × Snapshot)}
    {prev : Snapshot} {j : Int}
    (h : cleanRun r = true)
    (hl : lookupStatus m (.kstr (cleanName r)) = some prev)
    (hj : prev.id = Json.num j) (hlt : j < cleanId r) :
    updateStatuses m r = .ok (setStatus m (.kstr (cleanName r)) (cleanSnap r)) := by
  obtain ⟨hn, hne⟩ := cleanRun_name h
  have hid := cleanRun_id h
  obtain ⟨s, c, t, hst, hcl, hts⟩ := cleanRun_aux h
  have hsnap : cleanSnap r = ⟨Json.num (cleanId r), s, c, t⟩ := by
    simp [cleanSnap, hid, hst, hcl, hts, okOr]
  have hfalsy : (Json.str (cleanName r)).falsy = false := by
    simp [Json.falsy, hne]
  have hgt : pyGt (.num (cleanId r)) prev.id = .ok true := by
    rw [hj]
    simp [pyGt, hlt]
  simp [updateStatuses, hn, except_bind_ok, hfalsy, hid, hts, pyHashKey, hl, hgt,
    hst, hcl, hsnap]

/-- On a clean payload whose name is present with a stored id at least as
large, the grouping step keeps the dict unchanged. -/
lemma updateStatuses_clean_ge {r : Json} {m : List (KeyVal × Snapshot)}
    {prev : Snapshot} {j : Int}
    (h : cleanRun r = true)
    (hl : lookupStatus m (.kstr (cleanName r)) = some prev)
    (hj : prev.id = Json.num j) (hge : ¬ j < cleanId r) :
    updateStatuses m r = .ok m := by
  obtain ⟨hn, hne⟩ := cleanRun_name h
  have hid := cleanRun_id h
  obtain ⟨_, _, t, _, _, hts⟩ := cleanRun_aux h
  have hfalsy : (Json.str (cleanName r)).falsy = false := by
    simp [Json.falsy, hne]
  have hgt : pyGt (.num (cleanId r)) prev.id = .ok false := by
    rw [hj]
    simp [pyGt, hge]
  simp [updateStatuses, hn, except_bind_ok, hfalsy, hid, hts, pyHashKey, hl, hgt]

/-- The grouping loop over clean runs succeeds, keeps only numeric ids, and
realizes, name by name, the snapshot-level latest-run reduction. -/
lemma foldStatuses_sim :
    ∀ (runs : List Json) (m : List (KeyVal × Snapshot)),
      runs.all cleanRun = true →
      (∀ p ∈ m, ∃ j : Int, (p.2).id = Json.num j) →
      ∃ M, foldStatuses m runs = .ok M ∧
        (∀ p ∈ M, ∃ j : Int, (p.2).id = Json.num j) ∧
        (∀ name : String,
          lookupStatus M (.kstr name) = simBest name (lookupStatus m (.kstr name)) runs) := by
  intro runs
  induction runs with
  | nil =>
    intro m _ hm
    exact ⟨m, rfl, hm, fun name => rfl⟩
  | cons r rest ih =>
    intro m hall hm
    rw [List.all_cons, Bool.and_eq_true] at hall
    obtain ⟨hr, hrest⟩ := hall
    have hm2 : ∀ p ∈ setStatus m (.kstr (cleanName r)) (cleanSnap r),
        ∃ j : Int, (p.2).id = Json.num j := by
      intro p hp
      rcases setStatus_mem _ _ _ p hp with h1 | h2
      · rw [h1]
        exact ⟨cleanId r, (snapId_cleanSnap hr).1⟩
      · exact hm p h2
    have hkey : ∀ name : String, cleanName r ≠ name →
        KeyVal.kstr name ≠ .kstr (cleanName r) := by
      intro name hname hc
      exact hname (by injection hc with hcs; exact hcs.symm)
    cases hl : lookupStatus m (.kstr (cleanName r)) with
    | none =>
      have hupd := updateStatuses_clean_new hr hl
      obtain ⟨M, hM, hMinv, hMl⟩ := ih (setStatus m (.kstr (cleanName r)) (cleanSnap r)) hrest hm2
      refine ⟨M, ?_, hMinv, ?_⟩
      · rw [foldStatuses, hupd, except_bind_ok, hM]
      · intro name
        rw [hMl name, simBest]
        congr 1
        by_cases hname : cleanName r = name
        · rw [← hname, lookupStatus_setStatus_self]
          simp [stepBest, hl]
        · rw [lookupStatus_setStatus_ne _ _ _ _ (hkey name hname)]
          simp [stepBest, hname]
    | some prev =>
      obtain ⟨j, hj0⟩ := hm (.kstr (cleanName r), prev) (lookupStatus_mem hl)
      have hj : prev.id = Json.num j := hj0
      have hsid : snapId prev = j := by simp [snapId, hj]
      by_cases hlt : j < cleanId r
      · have hupd := updateStatuses_clean_lt hr hl hj hlt
        obtain ⟨M, hM, hMinv, hMl⟩ :=
          ih (setStatus m (.kstr (cleanName r)) (cleanSnap r)) hrest hm2
        refine ⟨M, ?_, hMinv, ?_⟩
        · rw [foldStatuses, hupd, except_bind_ok, hM]
        · intro name
          rw [hMl name, simBest]
          congr 1
          by_cases hname : cleanName r = name
          · rw [← hname, lookupStatus_setStatus_self]
            simp [stepBest, hl, hsid, hlt]
          · rw [lookupStatus_setStatus_ne _ _ _ _ (hkey name hname)]
            simp [stepBest, hname]
      · have hupd := updateStatuses_clean_ge hr hl hj hlt
        obtain ⟨M, hM, hMinv, hMl⟩ := ih m hrest hm
        refine ⟨M, ?_, hMinv, ?_⟩
        · rw [foldStatuses, hupd, except_bind_ok, hM]
        · intro name
          rw [hMl name, simBest]
          congr 1
          by_cases hname : cleanName r = name
          · rw [← hname, hl]
            simp [stepBest, hl, hsid, hlt]
          · simp [stepBest, hname]

/-- Unfolding of the spec-side reduction over a cons. -/
lemma spec_latest_run_cons (name : String) (best : Option Json) (r : Json) (rest : List Json) :
    spec_latest_run name best (r :: rest)
      = spec_latest_run name (specStep name best r) rest :=
  rfl

/-- Step on a new name. -/
lemma specStep_none {name : String} {r : Json} (hname : cleanName r = name) :
    specStep name none r = some r := by
  simp [specStep, hname]

/-- Step replacing a kept run with a numerically smaller id. -/
lemma specStep_some_lt {name : String} {r b : Json} (hname : cleanName r = name)
    (hlt : cleanId b < cleanId r) :
    specStep name (some b) r = some r := by
  simp [specStep, hname, hlt]

/-- Step keeping a run whose id is at least as large. -/
lemma specStep_some_ge {name : String} {r b : Json} (hname : cleanName r = name)
    (hge : ¬ cleanId b < cleanId r) :
    specStep name (some b) r = some b := by
  simp [specStep, hname, hge]

/-- Step on a run bearing a different name. -/
lemma specStep_other {name : String} {r : Json} (best : Option Json)
    (hname : cleanName r ≠ name) :
    specStep name best r = best := by
  simp [specStep, hname]

/-- The kept run's id never decreases along the spec-side reduction. -/
lemma spec_latest_acc_le (name : String) :
    ∀ (runs : List Json) (b0 b : Json),
      spec_latest_run name (some b0) runs = some b → cleanId b0 ≤ cleanId b := by
  intro runs
  induction runs with
  | nil =>
    intro b0 b h
    have h' : some b0 = some b := h
    injection h' with h1
    exact le_of_eq (by rw [h1])
  | cons r rest ih =>
    intro b0 b h
    rw [spec_latest_run_cons] at h
    by_cases hname : cleanName r = name
    · by_cases hlt : cleanId b0 < cleanId r
      · rw [specStep_some_lt hname hlt] at h
        exact le_trans (le_of_lt hlt) (ih r b h)
      · rw [specStep_some_ge hname hlt] at h
        exact ih b0 b h
    · rw [specStep_other _ hname] at h
      exact ih b0 b h

/-- The spec-side reduction returns a run from the list bearing the queried
name, unless it just returns its starting accumulator. -/
lemma spec_latest_mem (name : String) :
    ∀ (runs : List Json) (best : Option Json) (b : Json),
      spec_latest_run name best runs = some b →
      (b ∈ runs ∧ cleanName b = name) ∨ best = some b := by
  intro runs
  induction runs with
  | nil =>
    intro best b h
    exact Or.inr h
  | cons r rest ih =>
    intro best b h
    rw [spec_latest_run_cons] at h
    by_cases hname : cleanName r = name
    · cases best with
      | none =>
        rw [specStep_none hname] at h
        rcases ih (some r) b h with ⟨hm, hn2⟩ | heq
        · exact Or.inl ⟨List.mem_cons_of_mem r hm, hn2⟩
        · have hrb : r = b := Option.some.inj heq
          subst hrb
          exact Or.inl ⟨List.mem_cons_self r rest, hname⟩
      | some b0 =>
        by_cases hlt : cleanId b0 < cleanId r
        · rw [specStep_some_lt hname hlt] at h
          rcases ih (some r) b h with ⟨hm, hn2⟩ | heq
          · exact Or.inl ⟨List.mem_cons_of_mem r hm, hn2⟩
          · have hrb : r = b := Option.some.inj heq
            subst hrb
            exact Or.inl ⟨List.mem_cons_self r rest, hname⟩
        · rw [specStep_some_ge hname hlt] at h
          rcases ih (some b0) b h with ⟨hm, hn2⟩ | heq
          · exact Or.inl ⟨List.mem_cons_of_mem r hm, hn2⟩
          · exact Or.inr heq
    · rw [specStep_other _ hname] at h
      rcases ih best b h with ⟨hm, hn2⟩ | heq
      · exact Or.inl ⟨List.mem_cons_of_mem r hm, hn2⟩
      · exact Or.inr heq

/-- The run kept by the spec-side reduction has the numerically largest id
among the runs bearing the queried name. -/
lemma spec_latest_ge (name : String) :
    ∀ (runs : List Json) (best : Option Json) (b : Json),
      spec_latest_run name best runs = some b →
      ∀ r ∈ runs, cleanName r = name → cleanId r ≤ cleanId b := by
  intro runs
  induction runs with
  | nil =>
    intro best b _ r hr
    exact absurd hr (List.not_mem_nil r)
  | cons r0 rest ih =>
    intro best b h r hr hrname
    rw [spec_latest_run_cons] at h
    rcases List.mem_cons.mp hr with heq | hmem
    · subst heq
      cases best with
      | none =>
        rw [specStep_none hrname] at h
        exact spec_latest_acc_le name rest r b h
      | some b0 =>
        by_cases hlt : cleanId b0 < cleanId r
        · rw [specStep_some_lt hrname hlt] at h
          exact spec_latest_acc_le name rest r b h
        · rw [specStep_some_ge hrname hlt] at h
          exact le_trans (not_lt.mp hlt) (spec_latest_acc_le name rest b0 b h)
    · exact ih _ b h r hmem hrname

/-- On clean runs, the snapshot-level reduction is the `cleanSnap` image of
the spec-side reduction. -/
lemma simBest_eq_spec (name : String) :
    ∀ (runs : List Json), runs.all cleanRun = true →
    ∀ (best : Option Json), (∀ b, best = some b → cleanRun b = true) →
      simBest name (best.map cleanSnap) runs = (spec_latest_run name best runs).map cleanSnap := by
  intro runs
  induction runs with
  | nil =>
    intro _ best _
    rfl
  | cons r rest ih =>
    intro hall best hbest
    rw [List.all_cons, Bool.and_eq_true] at hall
    obtain ⟨hr, hrest⟩ := hall
    rw [simBest, spec_latest_run_cons]
    have hstep : stepBest name (best.map cleanSnap) r = (specStep name best r).map cleanSnap := by
      by_cases hname : cleanName r = name
      · cases best with
        | none =>
          rw [specStep_none hname]
          simp [stepBest, hname]
        | some b =>
          have hsb : snapId (cleanSnap b) = cleanId b := (snapId_cleanSnap (hbest b rfl)).2
          by_cases hlt : cleanId b < cleanId r
          · rw [specStep_some_lt hname hlt]
            simp [stepBest, hname, hsb, hlt]
          · rw [specStep_some_ge hname hlt]
            simp [stepBest, hname, hsb, hlt]
      · rw [specStep_other _ hname]
        simp [stepBest, hname]
    rw [hstep]
    apply ih hrest
    intro b hb
    by_cases hname : cleanName r = name
    · cases best with
      | none =>
        rw [specStep_none hname] at hb
        have hrb := Option.some.inj hb
        rw [← hrb]
        exact hr
      | some b0 =>
        by_cases hlt : cleanId b0 < cleanId r
        · rw [specStep_some_lt hname hlt] at hb
          have hrb := Option.some.inj hb
          rw [← hrb]
          exact hr
        · rw [specStep_some_ge hname hlt] at hb
          have hrb := Option.some.inj hb
          rw [← hrb]
          exact hbest b0 rfl
    · rw [specStep_other _ hname] at hb
      exact hbest b hb

/-- C2: on a log whose workflow-run payloads are clean (non-empty string
names, numeric run ids), the unfiltered `workflow_status` succeeds and its
mapping holds, for each name, exactly the snapshot of the run kept by the
spec-side reduction `spec_latest_run` — a run from the log bearing that name
whose id is maximal among all runs with that name, regardless of arrival
order (a later run with a smaller or equal id never replaces the kept one,
by definition of `specStep`).  Concretely, with two workflow-run events for
workflow "deploy" carrying ids 7 and 5, id 7 arriving first, the filtered
query returns the snapshot for id 7, not 5. -/
theorem c2_latest_run_id_wins :
    (∀ (l runs : List Json),
      filterWorkflowRuns l = .ok runs →
      runs.all cleanRun = true →
      runs ≠ [] →
      ∃ M, get_workflow_status (.events l) none = .ok (.statuses M) ∧
        (∀ name : String,
          lookupStatus M (.kstr name) = (spec_latest_run name none runs).map cleanSnap) ∧
        (∀ (name : String) (b : Json), spec_latest_run name none runs = some b →
          b ∈ runs ∧ cleanName b = name ∧
          ∀ r ∈ runs, cleanName r = name → cleanId r ≤ cleanId b)) ∧
    get_workflow_status (.events [
        .obj [("event_type", .str "workflow_run"),
              ("payload", .obj [("workflow", .obj [("name", .str "deploy")]),
                                ("workflow_run", .obj [("id", .num 7),
                                                       ("status", .str "completed"),
                                                       ("conclusion", .str "success"),
                                                       ("updated_at", .str "u7")])])],
        .obj [("event_type", .str "workflow_run"),
              ("payload", .obj [("workflow", .obj [("name", .str "deploy")]),
                                ("workflow_run", .obj [("id", .num 5),
                                                       ("status", .str "completed"),
                                                       ("conclusion", .str "failure"),
                                                       ("updated_at", .str "u5")])])]])
      (some "deploy")
      = .ok (.statuses [(.kstr "deploy",
          ⟨.num 7, .str "completed", .str "success", .str "u7"⟩)]) := by
  constructor
  · intro l runs hfil hall hne
    obtain ⟨M, hM, hMinv, hMl⟩ := foldStatuses_sim runs [] hall
      (by intro p hp; exact absurd hp (List.not_mem_nil p))
    have hie : runs.isEmpty = false := by
      cases runs with
      | nil => exact absurd rfl hne
      | cons a b => rfl
    refine ⟨M, ?_, ?_, ?_⟩
    · simp [get_workflow_status, hfil, except_bind_ok, hie, hM]
    · intro name
      have h0 : lookupStatus ([] : List (KeyVal × Snapshot)) (.kstr name) = none := rfl
      rw [hMl name, h0]
      have hsim := simBest_eq_spec name runs hall none (by intro b hb; cases hb)
      exact hsim
    · intro name b hb
      rcases spec_latest_mem name runs none b hb with ⟨hm, hn2⟩ | heq
      · exact ⟨hm, hn2, spec_latest_ge name runs none b hb⟩
      · exact absurd heq (by simp)
  · rfl

/-- Witness for C2 at a one-event log with workflow "ci" and run id 1. -/
theorem c2_latest_run_id_wins_witness :
    filterWorkflowRuns [.obj [("event_type", .str "workflow_run"),
        ("payload", .obj [("workflow", .obj [("name", .str "ci")]),
                          ("workflow_run", .obj [("id", .num 1)])])]]
      = .ok [.obj [("workflow", .obj [("name", .str "ci")]),
                   ("workflow_run", .obj [("id", .num 1)])]] ∧
    ([.obj [("workflow", .obj [("name", .str "ci")]),
            ("workflow_run", .obj [("id", .num 1)])]].all cleanRun) = true ∧
    [Json.obj [("workflow", .obj [("name", .str "ci")]),
               ("workflow_run", .obj [("id", .num 1)])]] ≠ [] ∧
    (∃ M, get_workflow_status (.events [.obj [("event_type", .str "workflow_run"),
          ("payload", .obj [("workflow", .obj [("name", .str "ci")]),
                            ("workflow_run", .obj [("id", .num 1)])])]]) none
        = .ok (.statuses M) ∧
      (∀ name : String,
        lookupStatus M (.kstr name)
          = (spec_latest_run name none
              [.obj [("workflow", .obj [("name", .str "ci")]),
                     ("workflow_run", .obj [("id", .num 1)])]]).map cleanSnap) ∧
      (∀ (name : String) (b : Json),
        spec_latest_run name none
            [.obj [("workflow", .obj [("name", .str "ci")]),
                   ("workflow_run", .obj [("id", .num 1)])]] = some b →
        b ∈ [Json.obj [("workflow", .obj [("name", .str "ci")]),
                       ("workflow_run", .obj [("id", .num 1)])]] ∧
        cleanName b = name ∧
        ∀ r ∈ [Json.obj [("workflow", .obj [("name", .str "ci")]),
                         ("workflow_run", .obj [("id", .num 1)])]],
          cleanName r = name → cleanId r ≤ cleanId b)) :=
  ⟨rfl, rfl, by simp,
    c2_latest_run_id_wins.1
      [.obj [("event_type", .str "workflow_run"),
        ("payload", .obj [("workflow", .obj [("name", .str "ci")]),
                          ("workflow_run", .obj [("id", .num 1)])])]]
      [.obj [("workflow", .obj [("name", .str "ci")]),
             ("workflow_run", .obj [("id", .num 1)])]]
      rfl rfl (by simp)⟩

/-- A key is present after a dict update exactly when it is the updated key
or was present before. -/
lemma lookupStatus_setStatus_isSome (m : List (KeyVal × Snapshot)) (k0 : KeyVal)
    (s : Snapshot) (k : KeyVal) :
    ((lookupStatus (setStatus m k0 s) k).isSome = true)
      ↔ (k = k0 ∨ (lookupStatus m k).isSome = true) := by
  by_cases hkk : k = k0
  · subst hkk
    rw [lookupStatus_setStatus_self]
    simp
  · rw [lookupStatus_setStatus_ne _ _ _ _ hkk]
    simp [hkk]

/-- The name-extraction witness of a grouping step is unique. -/
lemma okWitness_iff {n : Json} (k : KeyVal) :
    (∃ n', (Except.ok n : Except PyFault Json) = Except.ok n' ∧
        (Json.falsy n') = false ∧ pyHashKey n' = some k)
      ↔ ((Json.falsy n) = false ∧ pyHashKey n = some k) := by
  constructor
  · rintro ⟨n', hn', hf', hk'⟩
    have he := Except.ok.inj hn'
    rw [← he] at hf' hk'
    exact ⟨hf', hk'⟩
  · rintro ⟨hf, hk⟩
    exact ⟨n, rfl, hf, hk⟩

/-- A grouping step that returns leaves a key present exactly when it was
present before or the step's run carries a non-falsy hashable name mapping
to that key. -/
lemma updateStatuses_keys {m m2 : List (KeyVal × Snapshot)} {r : Json}
    (h : updateStatuses m r = .ok m2) (k : KeyVal) :
    ((lookupStatus m2 k).isSome = true)
      ↔ ((lookupStatus m k).isSome = true ∨
          ∃ n, nameOfRun r = .ok n ∧ (Json.falsy n) = false ∧ pyHashKey n = some k) := by
  cases hn : nameOfRun r with
  | error e =>
    rw [updateStatuses, hn, except_bind_error] at h
    exact absurd h (by simp)
  | ok n =>
    rw [updateStatuses, hn, except_bind_ok] at h
    rw [okWitness_iff k]
    by_cases hf : Json.falsy n = true
    · rw [if_pos hf] at h
      have hm2 : m2 = m := (Except.ok.inj h).symm
      subst hm2
      simp [hf]
    · have hf2 : Json.falsy n = false := by simpa using hf
      rw [if_neg hf] at h
      cases hi : runIdOf r with
      | error e =>
        rw [hi, except_bind_error] at h
        exact absurd h (by simp)
      | ok i =>
        rw [hi, except_bind_ok] at h
        cases ht : runTimestampOf r with
        | error e =>
          rw [ht, except_bind_error] at h
          exact absurd h (by simp)
        | ok t =>
          rw [ht, except_bind_ok] at h
          cases hk0 : pyHashKey n with
          | none =>
            rw [hk0] at h
            exact absurd h (by simp)
          | some k0 =>
            rw [hk0] at h
            have h2 : (match lookupStatus m k0 with
                | none =>
                  runStatusOf r >>= fun s => runConclusionOf r >>= fun c =>
                    Except.ok (setStatus m k0 (⟨i, s, c, t⟩ : Snapshot))
                | some prev => pyGt i prev.id >>= fun doUpd =>
                  if doUpd then
                    runStatusOf r >>= fun s => runConclusionOf r >>= fun c =>
                      Except.ok (setStatus m k0 (⟨i, s, c, t⟩ : Snapshot))
                  else Except.ok m) = Except.ok m2 := h
            cases hl : lookupStatus m k0 with
            | none =>
              rw [hl] at h2
              have h3 : (runStatusOf r >>= fun s => runConclusionOf r >>= fun c =>
                  Except.ok (setStatus m k0 (⟨i, s, c, t⟩ : Snapshot))) = Except.ok m2 := h2
              cases hs : runStatusOf r with
              | error e =>
                rw [hs, except_bind_error] at h3
                exact absurd h3 (by simp)
              | ok s =>
                rw [hs, except_bind_ok] at h3
                cases hc : runConclusionOf r with
                | error e =>
                  rw [hc, except_bind_error] at h3
                  exact absurd h3 (by simp)
                | ok c =>
                  rw [hc, except_bind_ok] at h3
                  have hm2 : m2 = setStatus m k0 ⟨i, s, c, t⟩ := (Except.ok.inj h3).symm
                  subst hm2
                  rw [lookupStatus_setStatus_isSome]
                  constructor
                  · rintro (hkk | hh)
                    · exact Or.inr ⟨hf2, by rw [hkk]⟩
                    · exact Or.inl hh
                  · rintro (hh | ⟨_, hkeq⟩)
                    · exact Or.inr hh
                    · exact Or.inl (Option.some.inj hkeq).symm
            | some prev =>
              rw [hl] at h2
              have h3 : (pyGt i prev.id >>= fun doUpd =>
                  if doUpd then
                    runStatusOf r >>= fun s => runConclusionOf r >>= fun c =>
                      Except.ok (setStatus m k0 (⟨i, s, c, t⟩ : Snapshot))
                  else Except.ok m) = Except.ok m2 := h2
              cases hg : pyGt i prev.id with
              | error e =>
                rw [hg, except_bind_error] at h3
                exact absurd h3 (by simp)
              | ok doUpd =>
                rw [hg, except_bind_ok] at h3
                cases doUpd with
                | false =>
                  rw [if_neg (by simp)] at h3
                  have hm2 : m2 = m := (Except.ok.inj h3).symm
                  subst hm2
                  constructor
                  · exact Or.inl
                  · rintro (hh | ⟨_, hkeq⟩)
                    · exact hh
                    · have hkk : k = k0 := (Option.some.inj hkeq).symm
                      rw [hkk, hl]
                      rfl
                | true =>
                  rw [if_pos rfl] at h3
                  cases hs : runStatusOf r with
                  | error e =>
                    rw [hs, except_bind_error] at h3
                    exact absurd h3 (by simp)
                  | ok s =>
                    rw [hs, except_bind_ok] at h3
                    cases hc : runConclusionOf r with
                    | error e =>
                      rw [hc, except_bind_error] at h3
                      exact absurd h3 (by simp)
                    | ok c =>
                      rw [hc, except_bind_ok] at h3
                      have hm2 : m2 = setStatus m k0 ⟨i, s, c, t⟩ := (Except.ok.inj h3).symm
                      subst hm2
                      rw [lookupStatus_setStatus_isSome]
                      constructor
                      · rintro (hkk | hh)
                        · exact Or.inr ⟨hf2, by rw [hkk]⟩
                        · exact Or.inl hh
                      · rintro (hh | ⟨_, hkeq⟩)
                        · exact Or.inr hh
                        · exact Or.inl (Option.some.inj hkeq).symm

/-- The keys present after the whole grouping loop are the starting keys
together with the hashed non-falsy names of the processed runs. -/
lemma foldStatuses_keys :
    ∀ (runs : List Json) (m M : List (KeyVal × Snapshot)),
      foldStatuses m runs = .ok M →
      ∀ k : KeyVal, ((lookupStatus M k).isSome = true) ↔
        ((lookupStatus m k).isSome = true ∨
          ∃ r ∈ runs, ∃ n, nameOfRun r = .ok n ∧ (Json.falsy n) = false ∧ pyHashKey n = some k) := by
  intro runs
  induction runs with
  | nil =>
    intro m M h k
    have h' : Except.ok m = Except.ok M := h
    have hm : M = m := (Except.ok.inj h').symm
    subst hm
    simp
  | cons r rest ih =>
    intro m M h k
    rw [foldStatuses] at h
    cases hu : updateStatuses m r with
    | error e =>
      rw [hu, except_bind_error] at h
      exact absurd h (by simp)
    | ok m2 =>
      rw [hu, except_bind_ok] at h
      rw [ih m2 M h k, updateStatuses_keys hu k]
      constructor
      · rintro ((hh | hr0) | ⟨r', hr', hw⟩)
        · exact Or.inl hh
        · exact Or.inr ⟨r, List.mem_cons_self r rest, hr0⟩
        · exact Or.inr ⟨r', List.mem_cons_of_mem r hr', hw⟩
      · rintro (hh | ⟨r', hr', hw⟩)
        · exact Or.inl (Or.inl hh)
        · rcases List.mem_cons.mp hr' with heq | hmem
          · subst heq
            exact Or.inl (Or.inr hw)
          · exact Or.inr ⟨r', hmem, hw⟩

/-- C10 as stated is refuted when the qualifying payload's `workflow` field
is not a dict: the event lacks a non-empty nested workflow name, yet the
call raises AttributeError instead of silently skipping it.  The second
conjunct shows the event does qualify as a workflow-run event with a payload
present. -/
theorem c10_claim_refuted_on_non_dict_workflow :
    get_workflow_status (.events [.obj [("event_type", .str "workflow_run"),
        ("payload", .obj [("workflow", .str "x")])]]) none
      = .error .attributeError ∧
    filterWorkflowRuns [.obj [("event_type", .str "workflow_run"),
        ("payload", .obj [("workflow", .str "x")])]]
      = .ok [.obj [("workflow", .str "x")]] :=
  ⟨rfl, rfl⟩

/-- C10 amended: a workflow-run event whose name extraction succeeds with a
falsy value (absent or empty name) is silently skipped — the grouping step
returns the dict unchanged with no error — and whenever the unfiltered call
returns a mapping, a key is present in it exactly when some retained payload
carries a non-falsy name that hashes to that key.  (The original claim fails
when the payload or its `workflow` field is not a dict: the extraction then
raises AttributeError instead of skipping, see the counterexample.) -/
theorem c10_unnamed_runs_skipped :
    (∀ (l runs : List Json) (M : List (KeyVal × Snapshot)),
      filterWorkflowRuns l = .ok runs →
      get_workflow_status (.events l) none = .ok (.statuses M) →
      ∀ k : KeyVal, ((lookupStatus M k).isSome = true) ↔
        ∃ r ∈ runs, ∃ n, nameOfRun r = .ok n ∧ (Json.falsy n) = false ∧ pyHashKey n = some k) ∧
    (∀ (m : List (KeyVal × Snapshot)) (r n : Json),
      nameOfRun r = .ok n → Json.falsy n = true → updateStatuses m r = .ok m) := by
  constructor
  · intro l runs M hfil h k
    cases hie : runs.isEmpty with
    | true =>
      simp only [get_workflow_status, hfil, except_bind_ok, hie, if_true] at h
      exact absurd h (by simp)
    | false =>
      simp only [get_workflow_status, hfil, except_bind_ok, hie, Bool.false_eq_true,
        if_false] at h
      cases hfold : foldStatuses [] runs with
      | error f =>
        rw [hfold, except_bind_error] at h
        exact absurd h (by simp)
      | ok M0 =>
        rw [hfold, except_bind_ok] at h
        have hM0 : M0 = M := by
          have h2 := Except.ok.inj h
          injection h2
        subst hM0
        have hkeys := foldStatuses_keys runs [] M0 hfold k
        simpa [lookupStatus] using hkeys
  · intro m r n hn hf
    rw [updateStatuses, hn, except_bind_ok, if_pos hf]

/-- Witness for the amended C10 at a two-event log: one named run and one
run whose workflow object lacks a name; the mapping's only key is the named
one. -/
theorem c10_unnamed_runs_skipped_witness :
    filterWorkflowRuns [
        .obj [("event_type", .str "workflow_run"),
          ("payload", .obj [("workflow", .obj [("name", .str "ci")]),
                            ("workflow_run", .obj [("id", .num 1)])])],
        .obj [("event_type", .str "workflow_run"),
          ("payload", .obj [("workflow", .obj [])])]]
      = .ok [.obj [("workflow", .obj [("name", .str "ci")]),
                   ("workflow_run", .obj [("id", .num 1)])],
             .obj [("workflow", .obj [])]] ∧
    get_workflow_status (.events [
        .obj [("event_type", .str "workflow_run"),
          ("payload", .obj [("workflow", .obj [("name", .str "ci")]),
                            ("workflow_run", .obj [("id", .num 1)])])],
        .obj [("event_type", .str "workflow_run"),
          ("payload", .obj [("workflow", .obj [])])]]) none
      = .ok (.statuses [(.kstr "ci", ⟨.num 1, .null, .null, .null⟩)]) ∧
    (((lookupStatus [(.kstr "ci", (⟨.num 1, .null, .null, .null⟩ : Snapshot))]
          (.kstr "ci")).isSome = true) ↔
      ∃ r ∈ [Json.obj [("workflow", .obj [("name", .str "ci")]),
                       ("workflow_run", .obj [("id", .num 1)])],
             Json.obj [("workflow", .obj [])]],
        ∃ n, nameOfRun r = .ok n ∧ (Json.falsy n) = false ∧
          pyHashKey n = some (.kstr "ci")) :=
  ⟨rfl, rfl,
    c10_unnamed_runs_skipped.1
      [.obj [("event_type", .str "workflow_run"),
        ("payload", .obj [("workflow", .obj [("name", .str "ci")]),
                          ("workflow_run", .obj [("id", .num 1)])])],
       .obj [("event_type", .str "workflow_run"),
        ("payload", .obj [("workflow", .obj [])])]]
      [.obj [("workflow", .obj [("name", .str "ci")]),
             ("workflow_run", .obj [("id", .num 1)])],
       .obj [("workflow", .obj [])]]
      [(.kstr "ci", ⟨.num 1, .null, .null, .null⟩)]
      rfl rfl (.kstr "ci")⟩
